import Mathlib

/-
Verification of the scoring and matching engine of the staffing tool
(`src/app.py`).  The Python functions are shallowly embedded in Lean:

* Python ints become `ℤ`; Python floats are modelled as exact rationals
  (`ℚ`); the literals 0.3, 0.45, 0.85 … are written as the rationals
  3/10, 45/100, 17/20 ….
* Python's builtin `round` (banker's rounding, round-half-to-even) is
  modelled by `pyRound`.
* `None`-able values become `Option`; Python truthiness of `None`/`0`/`""`
  is modelled explicitly where the source relies on it.
* `datetime.now()` is modelled by explicit `nowY`/`nowM` parameters; the
  database rows (`MonthlyWorkload`, `Project`, `ConsultantProject`) become
  plain structures, and SQLAlchemy `query...first()` becomes `List.find?`.
* code that can raise is modelled with `Option`; `Option.none` stands
  for a raised exception.  Two such paths exist: `int(...)` on a
  non-numeric string, and `datetime(end_year, end_month, 1)` on a stored
  end date outside `datetime`'s domain (years 1-9999, months 1-12).
-/

attribute [local semireducible] Rat.add Rat.sub Rat.mul Rat.inv Rat.ofScientific

/-- ASCII whitespace stripped by Python's `str.strip()` (the further
Unicode whitespace characters of Python play no role in any claim). -/
def pyIsSpace (c : Char) : Bool :=
  c == ' ' || c == '\t' || c == '\n' || c == '\x0d' || c == '\x0b' || c == '\x0c'

/-- Python's `str.strip()`: drop leading and trailing whitespace. -/
def pyStrip (s : String) : String :=
  String.mk (((s.data.dropWhile pyIsSpace).reverse.dropWhile pyIsSpace).reverse)

/-- Python's `str.lower()` on the ASCII range. -/
def pyLower (s : String) : String := String.mk (s.data.map Char.toLower)

/-- Python's `str.split(',')` at the character-list level. -/
def splitCommaAux : List Char → List (List Char)
  | [] => [[]]
  | c :: t =>
      if c = ',' then [] :: splitCommaAux t
      else
        match splitCommaAux t with
        | h :: r => (c :: h) :: r
        | [] => [[c]]

/-- Python's `str.split(',')`. -/
def pySplitComma (s : String) : List String := (splitCommaAux s.data).map String.mk

/-- Floor of a rational number, written exactly as it computes:
`q.num / q.den` (integer division).  Agrees with `Int.floor`
(`Rat.floor_def`). -/
def ratFloor (q : ℚ) : ℤ := q.num / q.den

theorem ratFloor_eq_floor (q : ℚ) : ratFloor q = ⌊q⌋ := (Rat.floor_def).symm

/-- Python's builtin `round` on a rational number: round half to even
(banker's rounding), as specified for Python floats. -/
def pyRound (q : ℚ) : ℤ :=
  if q - ratFloor q < 1/2 then ratFloor q
  else if 1/2 < q - ratFloor q then ratFloor q + 1
  else if ratFloor q % 2 = 0 then ratFloor q else ratFloor q + 1

/-- Python's `round(x, 1)` (one decimal digit), same tie-breaking. -/
def pyRound1 (q : ℚ) : ℚ := (pyRound (q * 10) : ℚ) / 10

theorem floor_le_pyRound (q : ℚ) : ⌊q⌋ ≤ pyRound q := by
  unfold pyRound
  rw [ratFloor_eq_floor]
  split_ifs <;> omega

theorem pyRound_le_floor_add_one (q : ℚ) : pyRound q ≤ ⌊q⌋ + 1 := by
  unfold pyRound
  rw [ratFloor_eq_floor]
  split_ifs <;> omega

theorem pyRound_intCast (n : ℤ) : pyRound (n : ℚ) = n := by
  unfold pyRound
  rw [ratFloor_eq_floor, Int.floor_intCast]
  have h : ((n : ℚ) - n) = 0 := by ring
  rw [h]
  norm_num

theorem pyRound_mono {q r : ℚ} (h : q ≤ r) : pyRound q ≤ pyRound r := by
  rcases lt_or_le ⌊q⌋ ⌊r⌋ with hf | hf
  · have h1 := pyRound_le_floor_add_one q
    have h2 := floor_le_pyRound r
    omega
  · have hf' : ⌊q⌋ = ⌊r⌋ := le_antisymm (Int.floor_le_floor h) hf
    unfold pyRound
    rw [ratFloor_eq_floor, ratFloor_eq_floor, hf']
    have hq : q - (⌊r⌋ : ℚ) ≤ r - (⌊r⌋ : ℚ) := by linarith
    split_ifs <;> first | omega | linarith

theorem pyRound_le_intCast {q : ℚ} {n : ℤ} (h : q ≤ (n : ℚ)) : pyRound q ≤ n := by
  have := pyRound_mono h
  rwa [pyRound_intCast] at this

theorem intCast_le_pyRound {q : ℚ} {n : ℤ} (h : (n : ℚ) ≤ q) : n ≤ pyRound q := by
  have := pyRound_mono h
  rwa [pyRound_intCast] at this

/-- Dynamic Python values as they reach the numeric helpers of `app.py`:
`None`, an integer, or a string. -/
inductive PyVal where
  | none
  | int (n : ℤ)
  | str (s : String)
deriving DecidableEq

/-- Python truthiness for the values of `PyVal`: `None`, `0` and `""` are
falsy, everything else is truthy. -/
def PyVal.truthy : PyVal → Bool
  | .none => false
  | .int n => n != 0
  | .str s => s != ""

/-- Python's `x or 0` as used in `calculate_workload_score`. -/
def pyOr0 (v : PyVal) : PyVal := if v.truthy then v else .int 0

/-- Python's `int(string)`: surrounding whitespace is stripped, an optional
single `+`/`-` sign is allowed, and the rest must be a non-empty run of
decimal digits (digit-group underscores of Python are not modelled; no
claim exercises them).  `Option.none` models a raised `ValueError`. -/
def strToIntPy (s : String) : Option ℤ :=
  match (pyStrip s).data with
  | '-' :: rest =>
      if rest ≠ [] ∧ rest.all Char.isDigit
      then some (-(rest.foldl (fun acc c => acc * 10 + ((c.toNat : ℤ) - 48)) (0 : ℤ)))
      else Option.none
  | '+' :: rest =>
      if rest ≠ [] ∧ rest.all Char.isDigit
      then some (rest.foldl (fun acc c => acc * 10 + ((c.toNat : ℤ) - 48)) (0 : ℤ))
      else Option.none
  | cs =>
      if cs ≠ [] ∧ cs.all Char.isDigit
      then some (cs.foldl (fun acc c => acc * 10 + ((c.toNat : ℤ) - 48)) (0 : ℤ))
      else Option.none

/-- Python's `int(value)` on a dynamic value; `Option.none` models a raised
`TypeError`/`ValueError`. -/
def pyCoerceInt : PyVal → Option ℤ
  | .none => Option.none
  | .int n => some n
  | .str s => strToIntPy s

/-- Model of `safe_int(value, default=0, min_val=None, max_val=None)` from
`src/app.py`: coerce to int, substitute `default` on failure, then clamp
below by `min_val` and above by `max_val` when given. -/
def safe_int (value : PyVal) (default : ℤ) (min_val max_val : Option ℤ) : ℤ :=
  match max_val, min_val with
  | some hi, some lo => min hi (max lo ((pyCoerceInt value).getD default))
  | some hi, Option.none => min hi ((pyCoerceInt value).getD default)
  | Option.none, some lo => max lo ((pyCoerceInt value).getD default)
  | Option.none, Option.none => (pyCoerceInt value).getD default

/-- Result record of `calculate_workload_score`. -/
structure WorkloadResult where
  workload_score : ℚ
  workload_percent : ℤ
  availability_percent : ℤ
  work_days : ℤ
  perceived_load : ℤ
deriving DecidableEq

/-- Clamp `max(0, int(work_days or 0))` once the integer is extracted. -/
def clampedWorkDays (wd : ℤ) : ℤ := max 0 wd

/-- Clamp `max(0, min(10, int(perceived_load or 0)))` once the integer is
extracted. -/
def clampedLoad (pl : ℤ) : ℤ := max 0 (min 10 pl)

/-- Score `workload_score = work_days + (perceived_load * 0.3)` on the clamped
inputs. -/
def workloadScoreQ (wd pl : ℤ) : ℚ :=
  (clampedWorkDays wd : ℚ) + (clampedLoad pl : ℚ) * (3/10)

/-- Percentage `workload_percent = min(100, round(workload_score / max_score * 100))`
with `max_score = 23.0`. -/
def workloadPercent (wd pl : ℤ) : ℤ :=
  min 100 (pyRound (workloadScoreQ wd pl / 23 * 100))

/-- Model of `calculate_workload_score` from `src/app.py` on already-coerced integer
inputs (the database rows always supply integers). -/
def calculate_workload_score (wd pl : ℤ) : WorkloadResult :=
  { workload_score := pyRound1 (workloadScoreQ wd pl)
    workload_percent := workloadPercent wd pl
    availability_percent := 100 - workloadPercent wd pl
    work_days := clampedWorkDays wd
    perceived_load := clampedLoad pl }

/-- Model of `calculate_workload_score` on dynamic Python values: the body runs
`int(work_days or 0)` and `int(perceived_load or 0)` outside any
`try`/`except`, so a non-coercible value raises (modelled as
`Option.none`). -/
def calculate_workload_score_py (wd pl : PyVal) : Option WorkloadResult :=
  match pyCoerceInt (pyOr0 wd), pyCoerceInt (pyOr0 pl) with
  | some w, some p => some (calculate_workload_score w p)
  | _, _ => Option.none

/-- One row of the `monthly_workload` table. -/
structure MonthlyWorkload where
  month : ℤ
  work_days : ℤ
  perceived_load : ℤ
deriving DecidableEq

/-- Model of `get_consultant_workload_for_month` from `src/app.py`: the SQL
`filter_by(month=month).first()` over the consultant's workload rows is
`List.find?`; a missing row is scored as `calculate_workload_score(0, 0)`. -/
def get_consultant_workload_for_month (workloads : List MonthlyWorkload) (month : ℤ) :
    WorkloadResult :=
  match workloads.find? (fun w => w.month == month) with
  | some w => calculate_workload_score w.work_days w.perceived_load
  | Option.none => calculate_workload_score 0 0

/-- Per-required-skill score of `calculate_skill_fit`: the consultant's
level for the skill is `csd skill_id` (a Python `dict.get(skill_id, 0)`,
absence already folded in as 0).  `min(1.0, consultant_level /
required_level)` when the required level is positive, else 1 for any
exposure and 0 otherwise. -/
def perSkillScore (csd : ℤ → ℤ) (p : ℤ × ℤ) : ℚ :=
  if 0 < p.2 then min 1 ((csd p.1 : ℚ) / (p.2 : ℚ))
  else if 0 < csd p.1 then 1 else 0

/-- Model of `calculate_skill_fit(consultant_skills_dict, required_skills)` from
`src/app.py`.  The skill dict is modelled as the total lookup
`skill_id ↦ level` with 0 for absent skills. -/
def calculate_skill_fit (csd : ℤ → ℤ) (required : List (ℤ × ℤ)) : ℤ :=
  if required.isEmpty then 100
  else if (required.map (perSkillScore csd)).isEmpty then 0
  else pyRound ((required.map (perSkillScore csd)).sum
      / ((required.map (perSkillScore csd)).length : ℚ) * 100)

/-- One row of the `project` table. -/
structure Project where
  id : ℤ
  name : String
  client : Option String
  domain_tags : Option String
deriving DecidableEq

/-- One row of the `consultant_project` table together with its joined
project. -/
structure ConsultantProject where
  project : Project
  role : Option String
  start_month : Option ℤ
  start_year : Option ℤ
  end_month : Option ℤ
  end_year : Option ℤ
  intensity_level : Option ℤ
deriving DecidableEq

/-- Model of `normalize_tags(tags_string)` from `src/app.py`: split on commas, trim,
lower-case, drop empties, deduplicate (a Python `set`). -/
def normalize_tags (ts : Option String) : Finset String :=
  match ts with
  | Option.none => ∅
  | some s =>
      if s = "" then ∅
      else ((((pySplitComma s).map pyStrip).filter (fun t => t != "")).map
        pyLower).toFinset

/-- Normalization `(client or '').strip().lower()` of a nullable client column. -/
def clientNorm (c : Option String) : String := pyLower (pyStrip (c.getD ""))

/-- Indicator `client_match = 1 if (client_past and client_ref and client_past ==
client_ref) else 0`. -/
def clientMatch01 (client_ref client_past : String) : ℤ :=
  if client_past ≠ "" ∧ client_ref ≠ "" ∧ client_past = client_ref then 1 else 0

/-- Tag overlap of `calculate_project_similarity`: fraction of the
reference tags present on the past project; 0 when the reference has no
tags. -/
def tagOverlap (tags_ref tags_past : Finset String) : ℚ :=
  if tags_ref = ∅ then 0
  else ((tags_ref ∩ tags_past).card : ℚ) / (tags_ref.card : ℚ)

/-- Whole months between `now` and the first day of (`y`, `m`):
`(now.year - end.year) * 12 + (now.month - end.month)`. -/
def monthsSince (nowY nowM y m : ℤ) : ℤ := (nowY - y) * 12 + (nowM - m)

/-- Recency bucket of `calculate_recency_factor` once the month difference
is known. -/
def recencyOfMonths (d : ℤ) : ℚ :=
  if d ≤ 6 then 1 else if d ≤ 18 then 17/20 else if d ≤ 36 then 7/10 else 3/5

/-- Model of `calculate_recency_factor(end_year, end_month)` from `src/app.py`.
`not end_year or not end_month` is Python truthiness, so `None` and `0`
both take the 0.75 branch.  On the remaining inputs the source builds
`datetime(end_year, end_month, 1)`, which raises `ValueError` unless
`1 ≤ end_year ≤ 9999` and `1 ≤ end_month ≤ 12` (the `inserisci` route
resets an out-of-range `end_month` to `None` but stores `end_year` with no
range check, so out-of-range years are reachable); the raise is modelled
as `Option.none`. -/
def calculate_recency_factor (nowY nowM : ℤ) (ey em : Option ℤ) : Option ℚ :=
  match ey, em with
  | some y, some m =>
      if y = 0 ∨ m = 0 then some (3/4)
      else if 1 ≤ y ∧ y ≤ 9999 ∧ 1 ≤ m ∧ m ≤ 12 then
        some (recencyOfMonths (monthsSince nowY nowM y m))
      else Option.none
  | _, _ => some (3/4)

/-- Value of `calculate_recency_factor` on its non-raising inputs, as a
total function: used to state what the engine computes when it returns. -/
def recencyValue (nowY nowM : ℤ) (ey em : Option ℤ) : ℚ :=
  match ey, em with
  | some y, some m =>
      if y = 0 ∨ m = 0 then 3/4 else recencyOfMonths (monthsSince nowY nowM y m)
  | _, _ => 3/4

/-- End-date fields on which `calculate_recency_factor` does not raise:
either field falsy (`None` or `0`, taking the 0.75 branch) or a date
inside `datetime`'s domain. -/
def endDateOk (ey em : Option ℤ) : Prop :=
  ey.getD 0 = 0 ∨ em.getD 0 = 0 ∨
    (1 ≤ ey.getD 0 ∧ ey.getD 0 ≤ 9999 ∧ 1 ≤ em.getD 0 ∧ em.getD 0 ≤ 12)

instance (ey em : Option ℤ) : Decidable (endDateOk ey em) :=
  inferInstanceAs (Decidable (_ ∨ _ ∨ _))

/-- An experience whose stored end date does not make the similarity
engine raise. -/
def expDateOk (cp : ConsultantProject) : Prop := endDateOk cp.end_year cp.end_month

instance (cp : ConsultantProject) : Decidable (expDateOk cp) :=
  inferInstanceAs (Decidable (endDateOk _ _))

theorem calculate_recency_factor_of_ok (nowY nowM : ℤ) {ey em : Option ℤ}
    (h : endDateOk ey em) :
    calculate_recency_factor nowY nowM ey em
      = some (recencyValue nowY nowM ey em) := by
  cases ey with
  | none => cases em <;> rfl
  | some y =>
      cases em with
      | none => rfl
      | some m =>
          unfold endDateOk at h
          simp only [Option.getD_some] at h
          by_cases hz : y = 0 ∨ m = 0
          · simp [calculate_recency_factor, recencyValue, hz]
          · have hok : 1 ≤ y ∧ y ≤ 9999 ∧ 1 ≤ m ∧ m ≤ 12 := by
              rcases h with h | h | h
              · exact absurd (Or.inl h) hz
              · exact absurd (Or.inr h) hz
              · exact h
            simp [calculate_recency_factor, recencyValue, hz, hok]

/-- Model of `calculate_intensity_factor(intensity_level)` from `src/app.py`. -/
def calculate_intensity_factor (il : Option ℤ) : ℚ :=
  match il with
  | Option.none => 17/20
  | some n =>
      if n = 1 then 7/10 else if n = 2 then 4/5 else if n = 3 then 22/25
      else if n = 4 then 19/20 else if n = 5 then 1 else 17/20

/-- Clamp `max(0, min(1, q))` to the unit interval. -/
def clamp01 (q : ℚ) : ℚ := max 0 (min 1 q)

theorem clamp01_nonneg (q : ℚ) : 0 ≤ clamp01 q := le_max_left 0 _

theorem clamp01_le_one (q : ℚ) : clamp01 q ≤ 1 :=
  max_le zero_le_one (min_le_left 1 q)

/-- Base similarity `base = 0.45*tag_overlap + 0.35*client_match + 0.20*min(1, tag_overlap
+ client_match * 0.5)`. -/
def simBase (tag_overlap client_match : ℚ) : ℚ :=
  45/100 * tag_overlap + 35/100 * client_match
    + 20/100 * min 1 (tag_overlap + client_match * (1/2))

/-- Per-experience similarity of the loop body of
`calculate_project_similarity`:
`max(0, min(1, base * recency * intensity_factor))`; the recency
computation can raise, which propagates out of the loop body. -/
def experience_similarity (nowY nowM : ℤ) (client_ref : String)
    (tags_ref : Finset String) (cp : ConsultantProject) : Option ℚ :=
  match calculate_recency_factor nowY nowM cp.end_year cp.end_month with
  | some recency =>
      some (clamp01 (simBase (tagOverlap tags_ref (normalize_tags cp.project.domain_tags))
          ((clientMatch01 client_ref (clientNorm cp.project.client) : ℚ))
        * recency * calculate_intensity_factor cp.intensity_level))
  | Option.none => Option.none

/-- Value of the per-experience similarity on non-raising end dates. -/
def experience_similarity_val (nowY nowM : ℤ) (client_ref : String)
    (tags_ref : Finset String) (cp : ConsultantProject) : ℚ :=
  clamp01 (simBase (tagOverlap tags_ref (normalize_tags cp.project.domain_tags))
      ((clientMatch01 client_ref (clientNorm cp.project.client) : ℚ))
    * recencyValue nowY nowM cp.end_year cp.end_month
    * calculate_intensity_factor cp.intensity_level)

theorem experience_similarity_of_ok (nowY nowM : ℤ) (client_ref : String)
    (tags_ref : Finset String) {cp : ConsultantProject}
    (h : endDateOk cp.end_year cp.end_month) :
    experience_similarity nowY nowM client_ref tags_ref cp
      = some (experience_similarity_val nowY nowM client_ref tags_ref cp) := by
  unfold experience_similarity experience_similarity_val
  rw [calculate_recency_factor_of_ok nowY nowM h]

/-- Human-readable recency bucket used in the best-match metadata. -/
def recencyDescOfMonths (d : ℤ) : String :=
  if d ≤ 6 then "Ultimo semestre" else if d ≤ 18 then "Ultimo anno e mezzo"
  else if d ≤ 36 then "Ultimi 3 anni" else "Più di 3 anni fa"

/-- Recency description of the winning experience (the update branch of
the loop): the same falsy check and the same `datetime(end_year,
end_month, 1)` construction as `calculate_recency_factor`, hence the same
raise domain, modelled as `Option.none`. -/
def recencyDesc (nowY nowM : ℤ) (ey em : Option ℤ) : Option String :=
  match ey, em with
  | some y, some m =>
      if y = 0 ∨ m = 0 then some "Date non specificate"
      else if 1 ≤ y ∧ y ≤ 9999 ∧ 1 ≤ m ∧ m ≤ 12 then
        some (recencyDescOfMonths (monthsSince nowY nowM y m))
      else Option.none
  | _, _ => some "Date non specificate"

/-- Value of `recencyDesc` on its non-raising inputs. -/
def recencyDescValue (nowY nowM : ℤ) (ey em : Option ℤ) : String :=
  match ey, em with
  | some y, some m =>
      if y = 0 ∨ m = 0 then "Date non specificate"
      else recencyDescOfMonths (monthsSince nowY nowM y m)
  | _, _ => "Date non specificate"

theorem recencyDesc_of_ok (nowY nowM : ℤ) {ey em : Option ℤ}
    (h : endDateOk ey em) :
    recencyDesc nowY nowM ey em = some (recencyDescValue nowY nowM ey em) := by
  cases ey with
  | none => cases em <;> rfl
  | some y =>
      cases em with
      | none => rfl
      | some m =>
          unfold endDateOk at h
          simp only [Option.getD_some] at h
          by_cases hz : y = 0 ∨ m = 0
          · simp [recencyDesc, recencyDescValue, hz]
          · have hok : 1 ≤ y ∧ y ≤ 9999 ∧ 1 ≤ m ∧ m ≤ 12 := by
              rcases h with h | h | h
              · exact absurd (Or.inl h) hz
              · exact absurd (Or.inr h) hz
              · exact h
            simp [recencyDesc, recencyDescValue, hz, hok]

/-- The `best_match_info` dictionary built for the winning experience. -/
structure BestMatchInfo where
  project_name : String
  project_id : ℤ
  client_match : Bool
  common_tags : ℕ
  total_ref_tags : ℕ
  recency_desc : String
  intensity : Option ℤ
  role : Option String
deriving DecidableEq

/-- Construction of `best_match_info` for one experience; building the
recency description can raise (same domain as the recency factor), which
propagates. -/
def mkBestMatchInfo (nowY nowM : ℤ) (client_ref : String)
    (tags_ref : Finset String) (cp : ConsultantProject) : Option BestMatchInfo :=
  match recencyDesc nowY nowM cp.end_year cp.end_month with
  | some desc =>
      some { project_name := cp.project.name
             project_id := cp.project.id
             client_match := clientMatch01 client_ref (clientNorm cp.project.client) == 1
             common_tags := (tags_ref ∩ normalize_tags cp.project.domain_tags).card
             total_ref_tags := tags_ref.card
             recency_desc := desc
             intensity := cp.intensity_level
             role := cp.role }
  | Option.none => Option.none

/-- Value of `best_match_info` on non-raising end dates. -/
def mkBestMatchInfoVal (nowY nowM : ℤ) (client_ref : String)
    (tags_ref : Finset String) (cp : ConsultantProject) : BestMatchInfo :=
  { project_name := cp.project.name
    project_id := cp.project.id
    client_match := clientMatch01 client_ref (clientNorm cp.project.client) == 1
    common_tags := (tags_ref ∩ normalize_tags cp.project.domain_tags).card
    total_ref_tags := tags_ref.card
    recency_desc := recencyDescValue nowY nowM cp.end_year cp.end_month
    intensity := cp.intensity_level
    role := cp.role }

theorem mkBestMatchInfo_of_ok (nowY nowM : ℤ) (client_ref : String)
    (tags_ref : Finset String) {cp : ConsultantProject}
    (h : endDateOk cp.end_year cp.end_month) :
    mkBestMatchInfo nowY nowM client_ref tags_ref cp
      = some (mkBestMatchInfoVal nowY nowM client_ref tags_ref cp) := by
  unfold mkBestMatchInfo mkBestMatchInfoVal
  rw [recencyDesc_of_ok nowY nowM h]

/-- The strict-maximum tracking loop of `calculate_project_similarity`:
`if similarity > best_similarity:` update the best value and its metadata,
otherwise keep the current pair. -/
def bestLoop {α β : Type} (sim : α → ℚ) (mk : α → β) :
    List α → ℚ → Option β → ℚ × Option β
  | [], b, inf => (b, inf)
  | cp :: t, b, inf =>
      if b < sim cp then bestLoop sim mk t (sim cp) (some (mk cp))
      else bestLoop sim mk t b inf

theorem bestLoop_fst {α β : Type} (sim : α → ℚ) (mk : α → β) :
    ∀ (l : List α) (b : ℚ) (inf : Option β),
      (bestLoop sim mk l b inf).1 = (l.map sim).foldl max b := by
  intro l
  induction l with
  | nil => intro b inf; rfl
  | cons a t ih =>
      intro b inf
      by_cases hab : b < sim a
      · rw [show bestLoop sim mk (a :: t) b inf
              = bestLoop sim mk t (sim a) (some (mk a)) from by simp [bestLoop, hab]]
        rw [ih]
        simp [max_eq_right (le_of_lt hab)]
      · rw [show bestLoop sim mk (a :: t) b inf = bestLoop sim mk t b inf from by
          simp [bestLoop, hab]]
        rw [ih]
        simp [max_eq_left (le_of_not_lt hab)]

/-- Full characterization of the strict-maximum loop: either no element
beats the initial best and the accumulator is returned unchanged, or the
result is the first element attaining the overall maximum — all earlier
elements are strictly smaller, all later ones are at most equal
(first-wins tie-breaking). -/
theorem bestLoop_spec {α β : Type} (sim : α → ℚ) (mk : α → β) :
    ∀ (l : List α) (b : ℚ) (inf : Option β),
      ((∀ x ∈ l, sim x ≤ b) ∧ bestLoop sim mk l b inf = (b, inf)) ∨
      (∃ pre x post, l = pre ++ x :: post ∧ b < sim x ∧
        bestLoop sim mk l b inf = (sim x, some (mk x)) ∧
        (∀ y ∈ pre, sim y < sim x) ∧ (∀ y ∈ post, sim y ≤ sim x)) := by
  intro l
  induction l with
  | nil => intro b inf; left; exact ⟨by simp, rfl⟩
  | cons a t ih =>
      intro b inf
      by_cases hab : b < sim a
      · have hstep : bestLoop sim mk (a :: t) b inf
            = bestLoop sim mk t (sim a) (some (mk a)) := by simp [bestLoop, hab]
        rcases ih (sim a) (some (mk a)) with ⟨hall, heq⟩ |
          ⟨pre, x, post, hsplit, hlt, heq, hpre, hpost⟩
        · right
          exact ⟨[], a, t, rfl, hab, by rw [hstep, heq], by simp, hall⟩
        · right
          refine ⟨a :: pre, x, post, by rw [hsplit]; rfl, lt_trans hab hlt,
            by rw [hstep, heq], ?_, hpost⟩
          intro y hy
          rcases List.mem_cons.mp hy with hy | hy
          · rw [hy]; exact hlt
          · exact hpre y hy
      · have hstep : bestLoop sim mk (a :: t) b inf = bestLoop sim mk t b inf := by
          simp [bestLoop, hab]
        rcases ih b inf with ⟨hall, heq⟩ |
          ⟨pre, x, post, hsplit, hlt, heq, hpre, hpost⟩
        · left
          refine ⟨?_, by rw [hstep, heq]⟩
          intro y hy
          rcases List.mem_cons.mp hy with hy | hy
          · rw [hy]; exact le_of_not_lt hab
          · exact hall y hy
        · right
          refine ⟨a :: pre, x, post, by rw [hsplit]; rfl, hlt, by rw [hstep, heq], ?_, hpost⟩
          intro y hy
          rcases List.mem_cons.mp hy with hy | hy
          · rw [hy]; exact lt_of_le_of_lt (le_of_not_lt hab) hlt
          · exact hpre y hy

/-- The metadata slot is still empty after the loop exactly when no
element exceeded the initial best. -/
theorem bestLoop_snd_none_iff {α β : Type} (sim : α → ℚ) (mk : α → β)
    (l : List α) (b : ℚ) :
    (bestLoop sim mk l b Option.none).2 = Option.none ↔ ∀ x ∈ l, sim x ≤ b := by
  rcases bestLoop_spec sim mk l b Option.none with ⟨hall, heq⟩ |
    ⟨pre, x, post, hsplit, hlt, heq, hpre, hpost⟩
  · rw [heq]
    exact ⟨fun _ => hall, fun _ => rfl⟩
  · rw [heq]
    constructor
    · intro h; exact absurd h (by simp)
    · intro hall
      exfalso
      have hx : x ∈ l := by
        rw [hsplit]; exact List.mem_append.mpr (Or.inr (List.mem_cons_self x post))
      exact absurd (hall x hx) (not_le.mpr hlt)

/-- The strict-maximum tracking loop over the fallible per-experience
computations of the source: the similarity of every element is computed
in turn (a raise aborts the whole loop, `Option.none`), and the metadata
construction runs in the update branch. -/
def bestLoopE {α β : Type} (sim : α → Option ℚ) (mk : α → Option β) :
    List α → ℚ → Option β → Option (ℚ × Option β)
  | [], b, inf => some (b, inf)
  | cp :: t, b, inf =>
      match sim cp with
      | Option.none => Option.none
      | some s =>
          if b < s then
            match mk cp with
            | Option.none => Option.none
            | some i => bestLoopE sim mk t s (some i)
          else bestLoopE sim mk t b inf

/-- When every element's similarity and metadata computations return, the
fallible loop returns and agrees with the pure loop on the returned
values. -/
theorem bestLoopE_eq_bestLoop {α β : Type} (sim : α → Option ℚ) (mk : α → Option β)
    (simV : α → ℚ) (mkV : α → β) :
    ∀ (l : List α) (b : ℚ) (inf : Option β),
      (∀ x ∈ l, sim x = some (simV x)) → (∀ x ∈ l, mk x = some (mkV x)) →
      bestLoopE sim mk l b inf = some (bestLoop simV mkV l b inf) := by
  intro l
  induction l with
  | nil => intro b inf _ _; rfl
  | cons a t ih =>
      intro b inf hsim hmk
      have hsa : sim a = some (simV a) := hsim a (List.mem_cons_self a t)
      have hma : mk a = some (mkV a) := hmk a (List.mem_cons_self a t)
      have hsim' : ∀ x ∈ t, sim x = some (simV x) :=
        fun x hx => hsim x (List.mem_cons_of_mem a hx)
      have hmk' : ∀ x ∈ t, mk x = some (mkV x) :=
        fun x hx => hmk x (List.mem_cons_of_mem a hx)
      by_cases hab : b < simV a
      · rw [show bestLoopE sim mk (a :: t) b inf
              = bestLoopE sim mk t (simV a) (some (mkV a)) from by
            simp [bestLoopE, hsa, hma, hab]]
        rw [show bestLoop simV mkV (a :: t) b inf
              = bestLoop simV mkV t (simV a) (some (mkV a)) from by
            simp [bestLoop, hab]]
        exact ih _ _ hsim' hmk'
      · rw [show bestLoopE sim mk (a :: t) b inf = bestLoopE sim mk t b inf from by
            simp [bestLoopE, hsa, hab]]
        rw [show bestLoop simV mkV (a :: t) b inf = bestLoop simV mkV t b inf from by
            simp [bestLoop, hab]]
        exact ih _ _ hsim' hmk'

/-- Fallible per-experience similarity against a reference project, with
the reference's client and tags normalized exactly as in the source. -/
def expSimOptOf (nowY nowM : ℤ) (rp : Project) : ConsultantProject → Option ℚ :=
  experience_similarity nowY nowM (clientNorm rp.client) (normalize_tags rp.domain_tags)

/-- Value of the per-experience similarity against a reference project on
non-raising end dates. -/
def expSimOf (nowY nowM : ℤ) (rp : Project) : ConsultantProject → ℚ :=
  experience_similarity_val nowY nowM (clientNorm rp.client) (normalize_tags rp.domain_tags)

/-- Fallible metadata builder against a reference project. -/
def mkInfoOptOf (nowY nowM : ℤ) (rp : Project) : ConsultantProject → Option BestMatchInfo :=
  mkBestMatchInfo nowY nowM (clientNorm rp.client) (normalize_tags rp.domain_tags)

/-- Value of the metadata builder against a reference project on
non-raising end dates. -/
def mkInfoOf (nowY nowM : ℤ) (rp : Project) : ConsultantProject → BestMatchInfo :=
  mkBestMatchInfoVal nowY nowM (clientNorm rp.client) (normalize_tags rp.domain_tags)

/-- Model of `calculate_project_similarity(consultant_projects, reference_project)`
from `src/app.py`: guard on an absent reference or an empty experience
list, then the strict-maximum loop — which raises (`Option.none`) when
some experience stores an end date outside `datetime`'s domain — then
`(round(best_similarity * 100), best_match_info)`. -/
def calculate_project_similarity (nowY nowM : ℤ)
    (consultant_projects : List ConsultantProject)
    (reference_project : Option Project) : Option (ℤ × Option BestMatchInfo) :=
  match reference_project with
  | Option.none => some (0, Option.none)
  | some rp =>
      if consultant_projects.isEmpty then some (0, Option.none)
      else
        match bestLoopE (expSimOptOf nowY nowM rp) (mkInfoOptOf nowY nowM rp)
            consultant_projects 0 Option.none with
        | some r => some (pyRound (r.1 * 100), r.2)
        | Option.none => Option.none

/-- Model of `calculate_final_score(skill_fit, availability, project_experience)`
from `src/app.py`: three-term weights when a project-experience value is
present, redistributed two-term weights when it is `None`. -/
def calculate_final_score (skill_fit availability : ℤ)
    (project_experience : Option ℤ) : ℤ :=
  match project_experience with
  | some pe =>
      pyRound (55/100 * (skill_fit : ℚ) + 30/100 * (availability : ℚ)
        + 15/100 * (pe : ℚ))
  | Option.none =>
      pyRound (65/100 * (skill_fit : ℚ) + 35/100 * (availability : ℚ))

/-- Per-consultant final score of the `match` route: skill fit from the
required skills, availability from the requested month's workload, and a
project-experience score computed precisely when a reference project is
present (`project_experience = None; if reference_project: ...`).  A raise
inside the similarity computation propagates (`Option.none`); with no
reference project no experience is ever evaluated. -/
def matchFinalScore (nowY nowM : ℤ) (csd : ℤ → ℤ) (required : List (ℤ × ℤ))
    (workloads : List MonthlyWorkload) (month : ℤ)
    (cprojects : List ConsultantProject) (reference_project : Option Project) :
    Option ℤ :=
  match reference_project with
  | some rp =>
      match calculate_project_similarity nowY nowM cprojects (some rp) with
      | some r =>
          some (calculate_final_score (calculate_skill_fit csd required)
            ((get_consultant_workload_for_month workloads month).availability_percent)
            (some r.1))
      | Option.none => Option.none
  | Option.none =>
      some (calculate_final_score (calculate_skill_fit csd required)
        ((get_consultant_workload_for_month workloads month).availability_percent)
        Option.none)

/-- Every per-experience similarity value is non-negative (final clamp). -/
theorem experience_similarity_val_nonneg (nowY nowM : ℤ) (cr : String)
    (tr : Finset String) (cp : ConsultantProject) :
    0 ≤ experience_similarity_val nowY nowM cr tr cp := clamp01_nonneg _

/-- Every per-experience similarity value is at most one (final clamp). -/
theorem experience_similarity_val_le_one (nowY nowM : ℤ) (cr : String)
    (tr : Finset String) (cp : ConsultantProject) :
    experience_similarity_val nowY nowM cr tr cp ≤ 1 := clamp01_le_one _

/-- Sum of a list all of whose entries equal a constant. -/
theorem list_sum_all_eq {l : List ℚ} {c : ℚ} (h : ∀ x ∈ l, x = c) :
    l.sum = (l.length : ℚ) * c := by
  induction l with
  | nil => simp
  | cons a t ih =>
      have ha : a = c := h a (List.mem_cons_self a t)
      have ht := ih (fun x hx => h x (List.mem_cons_of_mem a hx))
      simp only [List.sum_cons, List.length_cons, ht, ha]
      push_cast
      ring

/-- Sum of a list of non-negative rationals is non-negative. -/
theorem list_sum_nonneg_of {l : List ℚ} (h : ∀ x ∈ l, 0 ≤ x) : 0 ≤ l.sum := by
  induction l with
  | nil => simp
  | cons a t ih =>
      have ha := h a (List.mem_cons_self a t)
      have ht := ih (fun x hx => h x (List.mem_cons_of_mem a hx))
      simp only [List.sum_cons]
      linarith

/-- Sum of a list bounded above entrywise by a constant. -/
theorem list_sum_le_length_mul {l : List ℚ} {c : ℚ} (h : ∀ x ∈ l, x ≤ c) :
    l.sum ≤ (l.length : ℚ) * c := by
  induction l with
  | nil => simp
  | cons a t ih =>
      have ha := h a (List.mem_cons_self a t)
      have ht := ih (fun x hx => h x (List.mem_cons_of_mem a hx))
      simp only [List.sum_cons, List.length_cons]
      push_cast
      linarith

/-- C1. For every pair of inputs, the record returned by
`calculate_workload_score` satisfies
`workload_percent + availability_percent = 100`. -/
theorem workload_plus_availability_eq_100 (wd pl : ℤ) :
    (calculate_workload_score wd pl).workload_percent
      + (calculate_workload_score wd pl).availability_percent = 100 := by
  simp only [calculate_workload_score]
  omega

/-- Monotonicity of `workloadPercent` in both arguments at once. -/
theorem workloadPercent_mono {wd pl wd' pl' : ℤ} (h1 : wd ≤ wd') (h2 : pl ≤ pl') :
    workloadPercent wd pl ≤ workloadPercent wd' pl' := by
  have hwd : ((clampedWorkDays wd : ℤ) : ℚ) ≤ ((clampedWorkDays wd' : ℤ) : ℚ) := by
    have : clampedWorkDays wd ≤ clampedWorkDays wd' := by
      unfold clampedWorkDays; omega
    exact_mod_cast this
  have hpl : ((clampedLoad pl : ℤ) : ℚ) ≤ ((clampedLoad pl' : ℤ) : ℚ) := by
    have : clampedLoad pl ≤ clampedLoad pl' := by
      unfold clampedLoad; omega
    exact_mod_cast this
  have hs : workloadScoreQ wd pl ≤ workloadScoreQ wd' pl' := by
    unfold workloadScoreQ
    linarith
  have hq : workloadScoreQ wd pl / 23 * 100 ≤ workloadScoreQ wd' pl' / 23 * 100 := by
    linarith
  exact min_le_min le_rfl (pyRound_mono hq)

/-- C8. `workload_percent` is monotone non-decreasing in each argument. -/
theorem workloadPercent_monotone_each (wd wd' pl pl' : ℤ)
    (h1 : wd ≤ wd') (h2 : pl ≤ pl') :
    (calculate_workload_score wd pl).workload_percent
        ≤ (calculate_workload_score wd' pl).workload_percent ∧
    (calculate_workload_score wd pl).workload_percent
        ≤ (calculate_workload_score wd pl').workload_percent := by
  exact ⟨workloadPercent_mono h1 le_rfl, workloadPercent_mono le_rfl h2⟩

/-- Witness for C8 at `work_days` 1 ≤ 2 and `perceived_load` 3 ≤ 4. -/
theorem workloadPercent_monotone_each_witness :
    ((1 : ℤ) ≤ 2 ∧ (3 : ℤ) ≤ 4) ∧
    ((calculate_workload_score 1 3).workload_percent
        ≤ (calculate_workload_score 2 3).workload_percent ∧
     (calculate_workload_score 1 3).workload_percent
        ≤ (calculate_workload_score 1 4).workload_percent) :=
  ⟨⟨by norm_num, by norm_num⟩,
   workloadPercent_monotone_each 1 2 3 4 (by norm_num) (by norm_num)⟩

/-- C10. A month with no `MonthlyWorkload` row is scored as
`calculate_workload_score(0, 0)`: `workload_percent = 0` and
`availability_percent = 100` (a missing month counts as fully available). -/
theorem missing_month_fully_available (workloads : List MonthlyWorkload) (month : ℤ)
    (hmiss : ∀ w ∈ workloads, w.month ≠ month) :
    get_consultant_workload_for_month workloads month = calculate_workload_score 0 0 ∧
    (get_consultant_workload_for_month workloads month).workload_percent = 0 ∧
    (get_consultant_workload_for_month workloads month).availability_percent = 100 := by
  have hfind : workloads.find? (fun w => w.month == month) = Option.none := by
    rw [List.find?_eq_none]
    intro w hw
    simpa using hmiss w hw
  have heq : get_consultant_workload_for_month workloads month
      = calculate_workload_score 0 0 := by
    unfold get_consultant_workload_for_month
    rw [hfind]
  refine ⟨heq, ?_, ?_⟩ <;> rw [heq] <;> decide

/-- Witness for C10 on a workload list that has rows for other months
only. -/
theorem missing_month_fully_available_witness :
    (∀ w ∈ [({ month := 1, work_days := 5, perceived_load := 7 } : MonthlyWorkload)],
        w.month ≠ (2 : ℤ)) ∧
    (get_consultant_workload_for_month
        [({ month := 1, work_days := 5, perceived_load := 7 } : MonthlyWorkload)] 2
      = calculate_workload_score 0 0 ∧
     (get_consultant_workload_for_month
        [({ month := 1, work_days := 5, perceived_load := 7 } : MonthlyWorkload)]
        2).workload_percent = 0 ∧
     (get_consultant_workload_for_month
        [({ month := 1, work_days := 5, perceived_load := 7 } : MonthlyWorkload)]
        2).availability_percent = 100) :=
  ⟨by decide, missing_month_fully_available _ 2 (by decide)⟩

/-- Counterexample to C3 as stated: `calculate_workload_score` is not
total over non-numeric strings.  On `work_days = "abc"` the source runs
`int("abc" or 0)` outside any `try`/`except` and raises `ValueError`
(modelled by `Option.none`). -/
theorem workload_score_raises_on_nonnumeric_string :
    calculate_workload_score_py (PyVal.str "abc") (PyVal.int 0) = Option.none := by
  decide

/-- C3 (amended). `safe_int` is total: it substitutes the default on
`None` and on non-numeric strings and clamps the coerced integer to the
given bounds; `calculate_workload_score` returns a result without raising
on every integer and on missing (`None`) input, but raises on a non-empty
non-numeric string. -/
theorem safe_int_total_but_workload_raises :
    (∀ d lo hi : ℤ, safe_int PyVal.none d (some lo) (some hi) = min hi (max lo d)) ∧
    (∀ (s : String) (d lo hi : ℤ), strToIntPy s = Option.none →
        safe_int (PyVal.str s) d (some lo) (some hi) = min hi (max lo d)) ∧
    (∀ n d lo hi : ℤ, safe_int (PyVal.int n) d (some lo) (some hi) = min hi (max lo n)) ∧
    (∀ n d : ℤ, safe_int (PyVal.int n) d Option.none Option.none = n) ∧
    (∀ wd pl : ℤ, calculate_workload_score_py (PyVal.int wd) (PyVal.int pl)
        = some (calculate_workload_score wd pl)) ∧
    (calculate_workload_score_py PyVal.none PyVal.none
        = some (calculate_workload_score 0 0)) := by
  refine ⟨fun d lo hi => rfl, ?_, fun n d lo hi => rfl, fun n d => rfl, ?_, rfl⟩
  · intro s d lo hi hs
    simp [safe_int, pyCoerceInt, hs]
  · intro wd pl
    by_cases hwd : wd = 0 <;> by_cases hpl : pl = 0 <;>
      simp [calculate_workload_score_py, pyOr0, PyVal.truthy, pyCoerceInt, hwd, hpl]

/-- Witness for the amended C3: a non-numeric string falls back to the
default and is clamped. -/
theorem safe_int_total_but_workload_raises_witness :
    strToIntPy "xx" = Option.none ∧
    safe_int (PyVal.str "xx") 7 (some 0) (some 5) = min 5 (max 0 7) :=
  ⟨by decide, safe_int_total_but_workload_raises.2.1 "xx" 7 0 5 (by decide)⟩

/-- C5. On a valid end date, `calculate_recency_factor` maps a whole-month
difference of at most 6 to 1.0, 7–18 to 0.85, 19–36 to 0.70 and more than
36 to 0.60; a missing `end_year` or `end_month` yields 0.75.  The 6/7
month boundary is exercised by the witness. -/
theorem recency_factor_buckets (nowY nowM y m : ℤ) (ey em : Option ℤ)
    (hy1 : 1 ≤ y) (hy2 : y ≤ 9999) (hm1 : 1 ≤ m) (hm2 : m ≤ 12) :
    (monthsSince nowY nowM y m ≤ 6 →
        calculate_recency_factor nowY nowM (some y) (some m) = some 1) ∧
    (7 ≤ monthsSince nowY nowM y m → monthsSince nowY nowM y m ≤ 18 →
        calculate_recency_factor nowY nowM (some y) (some m) = some (17/20)) ∧
    (19 ≤ monthsSince nowY nowM y m → monthsSince nowY nowM y m ≤ 36 →
        calculate_recency_factor nowY nowM (some y) (some m) = some (7/10)) ∧
    (37 ≤ monthsSince nowY nowM y m →
        calculate_recency_factor nowY nowM (some y) (some m) = some (3/5)) ∧
    calculate_recency_factor nowY nowM Option.none em = some (3/4) ∧
    calculate_recency_factor nowY nowM ey Option.none = some (3/4) := by
  have hval : ¬(y = 0 ∨ m = 0) := by omega
  have hok : 1 ≤ y ∧ y ≤ 9999 ∧ 1 ≤ m ∧ m ≤ 12 := ⟨hy1, hy2, hm1, hm2⟩
  have hform : calculate_recency_factor nowY nowM (some y) (some m)
      = some (recencyOfMonths (monthsSince nowY nowM y m)) := by
    simp [calculate_recency_factor, hval, hok]
  refine ⟨?_, ?_, ?_, ?_, rfl, ?_⟩
  · intro h
    rw [hform]
    simp [recencyOfMonths, h]
  · intro h7 h18
    rw [hform]
    unfold recencyOfMonths
    rw [if_neg (by omega), if_pos h18]
  · intro h19 h36
    rw [hform]
    unfold recencyOfMonths
    rw [if_neg (by omega), if_neg (by omega), if_pos h36]
  · intro h37
    rw [hform]
    unfold recencyOfMonths
    rw [if_neg (by omega), if_neg (by omega), if_neg (by omega)]
  · cases ey <;> rfl

/-- Witness for C5 at the month-count boundary: with "now" 2026-10 an end
date of 2026-04 is exactly 6 months ago and scores 1.0, and 2026-03 is
exactly 7 months ago and scores 0.85; a missing end month scores 0.75. -/
theorem recency_factor_buckets_witness :
    ((1 : ℤ) ≤ 2026 ∧ (2026 : ℤ) ≤ 9999 ∧ (1 : ℤ) ≤ 4 ∧ (4 : ℤ) ≤ 12) ∧
    calculate_recency_factor 2026 10 (some 2026) (some 4) = some 1 ∧
    calculate_recency_factor 2026 10 (some 2026) (some 3) = some (17/20) ∧
    calculate_recency_factor 2026 10 (some 2026) Option.none = some (3/4) :=
  ⟨⟨by norm_num, by norm_num, by norm_num, by norm_num⟩,
   (recency_factor_buckets 2026 10 2026 4 Option.none Option.none
      (by norm_num) (by norm_num) (by norm_num) (by norm_num)).1 (by decide),
   ((recency_factor_buckets 2026 10 2026 3 Option.none Option.none
      (by norm_num) (by norm_num) (by norm_num) (by norm_num)).2.1
      (by decide) (by decide)),
   ((recency_factor_buckets 2026 10 2026 3 Option.none Option.none
      (by norm_num) (by norm_num) (by norm_num) (by norm_num)).2.2.2.2.2)⟩

/-- C6. `calculate_skill_fit` returns 100 on an empty required-skill list
regardless of the consultant's skills, and returns 100 whenever the
consultant meets or exceeds every required level (levels 1–5). -/
theorem skill_fit_full_when_met (csd : ℤ → ℤ) (required : List (ℤ × ℤ))
    (hmet : ∀ p ∈ required, 1 ≤ p.2 ∧ p.2 ≤ 5 ∧ p.2 ≤ csd p.1) :
    (∀ csd' : ℤ → ℤ, calculate_skill_fit csd' [] = 100) ∧
    calculate_skill_fit csd required = 100 := by
  refine ⟨fun csd' => rfl, ?_⟩
  match required with
  | [] => rfl
  | q :: t =>
      have hne : ((q :: t) : List (ℤ × ℤ)).isEmpty = false := rfl
      have hmap : ((q :: t).map (perSkillScore csd)).isEmpty = false := rfl
      have hall : ∀ x ∈ (q :: t).map (perSkillScore csd), x = 1 := by
        intro x hx
        rcases List.mem_map.mp hx with ⟨p, hp, rfl⟩
        rcases hmet p hp with ⟨h1, _, h3⟩
        have hpos : (0 : ℤ) < p.2 := by omega
        have hposq : (0 : ℚ) < (p.2 : ℚ) := by exact_mod_cast hpos
        have hge : (1 : ℚ) ≤ (csd p.1 : ℚ) / (p.2 : ℚ) := by
          rw [le_div_iff₀ hposq]
          have : (p.2 : ℚ) ≤ (csd p.1 : ℚ) := by exact_mod_cast h3
          linarith
        simp [perSkillScore, hpos, min_eq_left hge]
      have hsum : ((q :: t).map (perSkillScore csd)).sum
          = (((q :: t).map (perSkillScore csd)).length : ℚ) * 1 := list_sum_all_eq hall
      unfold calculate_skill_fit
      rw [hne, hmap]
      simp only [Bool.false_eq_true, if_false]
      rw [hsum]
      have hlen : (0 : ℚ) < (((q :: t).map (perSkillScore csd)).length : ℚ) := by
        simp only [List.length_map, List.length_cons]
        positivity
      rw [mul_one, div_self (ne_of_gt hlen)]
      have : ((1 : ℚ) * 100) = ((100 : ℤ) : ℚ) := by norm_num
      rw [this, pyRound_intCast]

/-- Witness for C6: one required skill at level 2 met with level 3. -/
theorem skill_fit_full_when_met_witness :
    ((1 : ℤ) ≤ 2 ∧ (2 : ℤ) ≤ 5 ∧ (2 : ℤ) ≤ 3) ∧
    calculate_skill_fit (fun _ => 3) [((1 : ℤ), (2 : ℤ))] = 100 :=
  ⟨⟨by norm_num, by norm_num, by norm_num⟩,
   (skill_fit_full_when_met (fun _ => 3) [(1, 2)] (by
      intro p hp
      have hp' : p = ((1 : ℤ), (2 : ℤ)) := by simpa using hp
      rw [hp']
      exact ⟨by norm_num, by norm_num, by norm_num⟩)).2⟩

theorem expSimOf_nonneg (nowY nowM : ℤ) (rp : Project) (cp : ConsultantProject) :
    0 ≤ expSimOf nowY nowM rp cp :=
  experience_similarity_val_nonneg nowY nowM (clientNorm rp.client)
    (normalize_tags rp.domain_tags) cp

theorem expSimOf_le_one (nowY nowM : ℤ) (rp : Project) (cp : ConsultantProject) :
    expSimOf nowY nowM rp cp ≤ 1 :=
  experience_similarity_val_le_one nowY nowM (clientNorm rp.client)
    (normalize_tags rp.domain_tags) cp

/-- Branch equation of `calculate_project_similarity` for a present
reference project and a non-empty experience list all of whose end dates
avoid the `datetime` raise: the engine returns, and the returned pair is
the pure strict-maximum computation. -/
theorem calculate_project_similarity_eq (nowY nowM : ℤ)
    (cps : List ConsultantProject) (rp : Project) (hne : cps ≠ [])
    (hvalid : ∀ cp ∈ cps, expDateOk cp) :
    calculate_project_similarity nowY nowM cps (some rp)
      = some (pyRound ((bestLoop (expSimOf nowY nowM rp) (mkInfoOf nowY nowM rp)
            cps 0 Option.none).1 * 100),
          (bestLoop (expSimOf nowY nowM rp) (mkInfoOf nowY nowM rp)
            cps 0 Option.none).2) := by
  have hempty : cps.isEmpty = false := by
    cases cps with
    | nil => exact absurd rfl hne
    | cons a t => rfl
  have hsim : ∀ cp ∈ cps, expSimOptOf nowY nowM rp cp
      = some (expSimOf nowY nowM rp cp) :=
    fun cp hcp => experience_similarity_of_ok nowY nowM _ _ (hvalid cp hcp)
  have hmk : ∀ cp ∈ cps, mkInfoOptOf nowY nowM rp cp
      = some (mkInfoOf nowY nowM rp cp) :=
    fun cp hcp => mkBestMatchInfo_of_ok nowY nowM _ _ (hvalid cp hcp)
  have hloop := bestLoopE_eq_bestLoop (expSimOptOf nowY nowM rp)
    (mkInfoOptOf nowY nowM rp) (expSimOf nowY nowM rp) (mkInfoOf nowY nowM rp)
    cps 0 Option.none hsim hmk
  simp [calculate_project_similarity, hempty, hloop]

/-- The modelled raise is real: an experience stored with end year 20000
(storable, since the `inserisci` route range-checks `end_month` but not
`end_year`) makes `calculate_recency_factor` — and with it the whole
similarity engine — raise rather than return a score. -/
theorem similarity_raises_on_out_of_range_year :
    calculate_recency_factor 2026 10 (some 20000) (some 5) = Option.none ∧
    calculate_project_similarity 2026 10
      [⟨⟨9, "Bad", Option.none, Option.none⟩, Option.none, Option.none,
        Option.none, some 5, some 20000, Option.none⟩]
      (some ⟨8, "RefBad", Option.none, Option.none⟩) = Option.none := by
  constructor <;> decide

/-- C2. The similarity engine: immediate `(0, absent)` on an absent
reference project or an empty experience list; otherwise, when no stored
end date makes `datetime` raise, the engine returns a pair whose first
component is `round(best * 100)` for the running strict maximum `best` of
the per-experience similarities; the metadata is absent exactly when every
per-experience similarity is 0; and otherwise it describes the first
experience attaining the maximum — all earlier experiences are strictly
smaller, later ones never replace it on ties. -/
theorem project_similarity_best_tracking (nowY nowM : ℤ)
    (cps : List ConsultantProject) (rp : Project) (hne : cps ≠ [])
    (hvalid : ∀ cp ∈ cps, expDateOk cp) :
    (∀ l : List ConsultantProject,
        calculate_project_similarity nowY nowM l Option.none
          = some (0, Option.none)) ∧
    (calculate_project_similarity nowY nowM [] (some rp)
        = some (0, Option.none)) ∧
    (∃ best info,
      calculate_project_similarity nowY nowM cps (some rp) = some (best, info) ∧
      best = pyRound ((cps.map (expSimOf nowY nowM rp)).foldl max 0 * 100) ∧
      (info = Option.none ↔ ∀ cp ∈ cps, expSimOf nowY nowM rp cp = 0) ∧
      (∀ i, info = some i →
        ∃ pre x post, cps = pre ++ x :: post ∧ i = mkInfoOf nowY nowM rp x ∧
          0 < expSimOf nowY nowM rp x ∧
          best = pyRound (expSimOf nowY nowM rp x * 100) ∧
          (∀ y ∈ pre, expSimOf nowY nowM rp y < expSimOf nowY nowM rp x) ∧
          (∀ y ∈ post, expSimOf nowY nowM rp y ≤ expSimOf nowY nowM rp x))) := by
  have hcalc := calculate_project_similarity_eq nowY nowM cps rp hne hvalid
  refine ⟨fun l => rfl, rfl, ?_⟩
  refine ⟨_, _, hcalc, ?_, ?_, ?_⟩
  · rw [bestLoop_fst]
  · rw [bestLoop_snd_none_iff]
    constructor
    · intro h cp hcp
      exact le_antisymm (h cp hcp) (expSimOf_nonneg nowY nowM rp cp)
    · intro h cp hcp
      exact le_of_eq (h cp hcp)
  · intro i hi
    rcases bestLoop_spec (expSimOf nowY nowM rp) (mkInfoOf nowY nowM rp)
        cps 0 Option.none with ⟨hall, heq⟩ |
      ⟨pre, x, post, hsplit, hlt, heq, hpre, hpost⟩
    · rw [heq] at hi
      exact absurd hi.symm (by simp)
    · rw [heq] at hi
      refine ⟨pre, x, post, hsplit, ?_, hlt, ?_, hpre, hpost⟩
      · exact (Option.some_inj.mp hi).symm
      · rw [heq]

/-- Concrete reference project for the C2 witness. -/
def c2ref : Project := ⟨1, "Ref", some "acme", Option.none⟩

/-- Concrete past experience for the C2 witness. -/
def c2exp : ConsultantProject :=
  ⟨⟨2, "Past", some "acme", Option.none⟩, Option.none, Option.none, Option.none,
    some 9, some 2026, some 5⟩

/-- Witness for C2 on a one-experience list with a matching client and a
valid end date. -/
theorem project_similarity_best_tracking_witness :
    (([c2exp] ≠ ([] : List ConsultantProject)) ∧ (∀ cp ∈ [c2exp], expDateOk cp)) ∧
    (∃ best info,
      calculate_project_similarity 2026 10 [c2exp] (some c2ref) = some (best, info) ∧
      best = pyRound (([c2exp].map (expSimOf 2026 10 c2ref)).foldl max 0 * 100) ∧
      (info = Option.none ↔ ∀ cp ∈ [c2exp], expSimOf 2026 10 c2ref cp = 0) ∧
      (∀ i, info = some i →
        ∃ pre x post, [c2exp] = pre ++ x :: post ∧ i = mkInfoOf 2026 10 c2ref x ∧
          0 < expSimOf 2026 10 c2ref x ∧
          best = pyRound (expSimOf 2026 10 c2ref x * 100) ∧
          (∀ y ∈ pre, expSimOf 2026 10 c2ref y < expSimOf 2026 10 c2ref x) ∧
          (∀ y ∈ post, expSimOf 2026 10 c2ref y ≤ expSimOf 2026 10 c2ref x))) :=
  ⟨⟨by decide, by decide⟩,
   (project_similarity_best_tracking 2026 10 [c2exp] c2ref (by decide)
      (by decide)).2.2⟩

/-- C7. An experience with the same non-empty client (case-insensitive),
full tag coverage of a non-empty reference tag set, an end date within the
last month and intensity 5 has per-experience similarity exactly 1
(base 1, both decay factors 1.0), and — when no stored end date in the
list makes `datetime` raise — the engine returns score 100. -/
theorem perfect_match_scores_100 (nowY nowM : ℤ) (cps : List ConsultantProject)
    (rp : Project) (cp : ConsultantProject) (hmem : cp ∈ cps)
    (hvalid : ∀ cp' ∈ cps, expDateOk cp')
    (hcr : clientNorm rp.client ≠ "")
    (hceq : clientNorm cp.project.client = clientNorm rp.client)
    (htne : normalize_tags rp.domain_tags ≠ ∅)
    (hsub : normalize_tags rp.domain_tags ⊆ normalize_tags cp.project.domain_tags)
    (y m : ℤ) (hey : cp.end_year = some y) (hem : cp.end_month = some m)
    (hy : 1 ≤ y) (hm1 : 1 ≤ m) (hm2 : m ≤ 12)
    (hd0 : 0 ≤ monthsSince nowY nowM y m) (hd1 : monthsSince nowY nowM y m ≤ 1)
    (hint : cp.intensity_level = some 5) :
    expSimOf nowY nowM rp cp = 1 ∧
    (∃ info, calculate_project_similarity nowY nowM cps (some rp)
        = some (100, info)) := by
  have hcm : clientMatch01 (clientNorm rp.client) (clientNorm cp.project.client) = 1 := by
    unfold clientMatch01
    rw [if_pos ⟨by rw [hceq]; exact hcr, hcr, hceq⟩]
  have hto : tagOverlap (normalize_tags rp.domain_tags)
      (normalize_tags cp.project.domain_tags) = 1 := by
    unfold tagOverlap
    rw [if_neg htne, Finset.inter_eq_left.mpr hsub]
    have hcard : (((normalize_tags rp.domain_tags).card : ℕ) : ℚ) ≠ 0 := by
      have h0 : (normalize_tags rp.domain_tags).card ≠ 0 := by
        intro h
        exact htne (Finset.card_eq_zero.mp h)
      exact_mod_cast h0
    exact div_self hcard
  have hrec : recencyValue nowY nowM cp.end_year cp.end_month = 1 := by
    rw [hey, hem]
    have hval : ¬(y = 0 ∨ m = 0) := by omega
    simp only [recencyValue, if_neg hval]
    unfold recencyOfMonths
    rw [if_pos (by omega)]
  have hintf : calculate_intensity_factor cp.intensity_level = 1 := by
    rw [hint]
    norm_num [calculate_intensity_factor]
  have hsim : expSimOf nowY nowM rp cp = 1 := by
    unfold expSimOf experience_similarity_val
    rw [hto, hcm, hrec, hintf]
    have h32 : (((1 : ℤ) : ℚ)) = 1 := by norm_num
    rw [h32]
    unfold simBase
    have h12 : (1 : ℚ) + 1 * (1/2) = 3/2 := by norm_num
    rw [h12, min_eq_left (by norm_num : (1 : ℚ) ≤ 3/2)]
    norm_num [clamp01]
  refine ⟨hsim, ?_⟩
  have hne : cps ≠ [] := by
    intro h
    rw [h] at hmem
    exact absurd hmem (List.not_mem_nil cp)
  have hcalc := calculate_project_similarity_eq nowY nowM cps rp hne hvalid
  rcases bestLoop_spec (expSimOf nowY nowM rp) (mkInfoOf nowY nowM rp)
      cps 0 Option.none with ⟨hall, heq⟩ |
    ⟨pre, x, post, hsplit, hlt, heq, hpre, hpost⟩
  · exfalso
    have := hall cp hmem
    rw [hsim] at this
    norm_num at this
  · have hcple : expSimOf nowY nowM rp cp ≤ expSimOf nowY nowM rp x := by
      rw [hsplit] at hmem
      rcases List.mem_append.mp hmem with hin | hin
      · exact le_of_lt (hpre cp hin)
      · rcases List.mem_cons.mp hin with hcp | hin
        · rw [hcp]
        · exact hpost cp hin
    have hx1 : expSimOf nowY nowM rp x = 1 := by
      have hle := expSimOf_le_one nowY nowM rp x
      rw [hsim] at hcple
      linarith
    have h100 : pyRound ((bestLoop (expSimOf nowY nowM rp) (mkInfoOf nowY nowM rp)
        cps 0 Option.none).1 * 100) = 100 := by
      rw [heq]
      simp only
      rw [hx1]
      norm_num
      decide
    refine ⟨(bestLoop (expSimOf nowY nowM rp) (mkInfoOf nowY nowM rp)
        cps 0 Option.none).2, ?_⟩
    rw [hcalc, h100]

/-- Concrete reference project for the C7 witness. -/
def c7ref : Project := ⟨1, "Ref", some "acme", some "ai"⟩

/-- Concrete perfectly matching experience for the C7 witness. -/
def c7exp : ConsultantProject :=
  ⟨⟨2, "Past", some "acme", some "ai, training"⟩, some "lead", Option.none,
    Option.none, some 9, some 2026, some 5⟩

/-- Witness for C7: identical client, full tag overlap, end date one month
ago, intensity 5, valid stored date. -/
theorem perfect_match_scores_100_witness :
    (clientNorm c7exp.project.client = clientNorm c7ref.client ∧
     normalize_tags c7ref.domain_tags ⊆ normalize_tags c7exp.project.domain_tags ∧
     (∀ cp ∈ [c7exp], expDateOk cp)) ∧
    (expSimOf 2026 10 c7ref c7exp = 1 ∧
     (∃ info, calculate_project_similarity 2026 10 [c7exp] (some c7ref)
        = some (100, info))) :=
  ⟨⟨by decide, by decide, by decide⟩,
   perfect_match_scores_100 2026 10 [c7exp] c7ref c7exp (by decide) (by decide)
     (by decide) (by decide) (by decide) (by decide) 2026 9 (by decide) (by decide)
     (by norm_num) (by norm_num) (by norm_num) (by decide) (by decide) (by decide)⟩

/-- Rounding keeps a value of `[0, 100]` in the integer range `[0, 100]`. -/
theorem pyRound_mem_0_100 {q : ℚ} (h0 : 0 ≤ q) (h1 : q ≤ 100) :
    0 ≤ pyRound q ∧ pyRound q ≤ 100 := by
  constructor
  · exact intCast_le_pyRound (by exact_mod_cast h0)
  · exact pyRound_le_intCast (by exact_mod_cast h1)

/-- Each per-skill score lies in `[0, 1]` for non-negative consultant
levels. -/
theorem perSkillScore_mem (csd : ℤ → ℤ) (p : ℤ × ℤ) (hcs : 0 ≤ csd p.1) :
    0 ≤ perSkillScore csd p ∧ perSkillScore csd p ≤ 1 := by
  unfold perSkillScore
  by_cases hp : 0 < p.2
  · rw [if_pos hp]
    constructor
    · refine le_min (by norm_num) (div_nonneg ?_ ?_)
      · exact_mod_cast hcs
      · exact_mod_cast le_of_lt hp
    · exact min_le_left _ _
  · rw [if_neg hp]
    by_cases hc : 0 < csd p.1
    · rw [if_pos hc]; norm_num
    · rw [if_neg hc]; norm_num

/-- C9. Under the data-model preconditions (and end dates on which the
engine does not raise), `calculate_skill_fit`, the score returned by
`calculate_project_similarity` and both branches of
`calculate_final_score` are integers in `[0, 100]`. -/
theorem engine_scores_in_range (csd : ℤ → ℤ) (required : List (ℤ × ℤ))
    (hcs : ∀ i, 0 ≤ csd i ∧ csd i ≤ 5)
    (hreq : ∀ p ∈ required, 1 ≤ p.2 ∧ p.2 ≤ 5)
    (nowY nowM : ℤ) (cps : List ConsultantProject) (rp : Option Project)
    (hvalid : ∀ cp ∈ cps, expDateOk cp)
    (sf av pe : ℤ)
    (hsf : 0 ≤ sf ∧ sf ≤ 100) (hav : 0 ≤ av ∧ av ≤ 100)
    (hpe : 0 ≤ pe ∧ pe ≤ 100) :
    (0 ≤ calculate_skill_fit csd required ∧ calculate_skill_fit csd required ≤ 100) ∧
    (∃ score info, calculate_project_similarity nowY nowM cps rp = some (score, info) ∧
      0 ≤ score ∧ score ≤ 100) ∧
    (0 ≤ calculate_final_score sf av (some pe) ∧
      calculate_final_score sf av (some pe) ≤ 100) ∧
    (0 ≤ calculate_final_score sf av Option.none ∧
      calculate_final_score sf av Option.none ≤ 100) := by
  refine ⟨?_, ?_, ?_, ?_⟩
  · match required with
    | [] =>
        have h100 : calculate_skill_fit csd [] = 100 := rfl
        rw [h100]
        exact ⟨by norm_num, by norm_num⟩
    | q :: t =>
        have hne : ((q :: t) : List (ℤ × ℤ)).isEmpty = false := rfl
        have hmap : ((q :: t).map (perSkillScore csd)).isEmpty = false := rfl
        unfold calculate_skill_fit
        rw [hne, hmap]
        simp only [Bool.false_eq_true, if_false]
        have hlb : ∀ x ∈ (q :: t).map (perSkillScore csd), 0 ≤ x := by
          intro x hx
          rcases List.mem_map.mp hx with ⟨p, _, rfl⟩
          exact (perSkillScore_mem csd p (hcs p.1).1).1
        have hub : ∀ x ∈ (q :: t).map (perSkillScore csd), x ≤ 1 := by
          intro x hx
          rcases List.mem_map.mp hx with ⟨p, _, rfl⟩
          exact (perSkillScore_mem csd p (hcs p.1).1).2
        have hlen : (0 : ℚ) < (((q :: t).map (perSkillScore csd)).length : ℚ) := by
          simp only [List.length_map, List.length_cons]
          positivity
        have hs0 : 0 ≤ ((q :: t).map (perSkillScore csd)).sum := list_sum_nonneg_of hlb
        have hs1 : ((q :: t).map (perSkillScore csd)).sum
            ≤ (((q :: t).map (perSkillScore csd)).length : ℚ) * 1 :=
          list_sum_le_length_mul hub
        have hd0 : 0 ≤ ((q :: t).map (perSkillScore csd)).sum
            / (((q :: t).map (perSkillScore csd)).length : ℚ) :=
          div_nonneg hs0 (le_of_lt hlen)
        have hd1 : ((q :: t).map (perSkillScore csd)).sum
            / (((q :: t).map (perSkillScore csd)).length : ℚ) ≤ 1 := by
          rw [div_le_one hlen]
          linarith
        exact pyRound_mem_0_100 (by linarith) (by linarith)
  · match rp with
    | Option.none =>
        exact ⟨0, Option.none, rfl, le_rfl, by norm_num⟩
    | some p =>
        match cps, hvalid with
        | [], _ =>
            exact ⟨0, Option.none, rfl, le_rfl, by norm_num⟩
        | c :: t, hvalid =>
            have hcalc := calculate_project_similarity_eq nowY nowM (c :: t) p
              (by simp) hvalid
            have hbest : 0 ≤ (bestLoop (expSimOf nowY nowM p) (mkInfoOf nowY nowM p)
                  (c :: t) 0 Option.none).1 ∧
                (bestLoop (expSimOf nowY nowM p) (mkInfoOf nowY nowM p)
                  (c :: t) 0 Option.none).1 ≤ 1 := by
              rcases bestLoop_spec (expSimOf nowY nowM p) (mkInfoOf nowY nowM p)
                  (c :: t) 0 Option.none with ⟨_, heq⟩ |
                ⟨pre, x, post, _, _, heq, _, _⟩
              · rw [heq]; exact ⟨le_rfl, by norm_num⟩
              · rw [heq]
                exact ⟨expSimOf_nonneg nowY nowM p x, expSimOf_le_one nowY nowM p x⟩
            refine ⟨_, _, hcalc, ?_, ?_⟩
            · exact (pyRound_mem_0_100 (by nlinarith [hbest.1, hbest.2])
                (by nlinarith [hbest.1, hbest.2])).1
            · exact (pyRound_mem_0_100 (by nlinarith [hbest.1, hbest.2])
                (by nlinarith [hbest.1, hbest.2])).2
  · have hsfq : (0 : ℚ) ≤ (sf : ℚ) ∧ (sf : ℚ) ≤ 100 :=
      ⟨by exact_mod_cast hsf.1, by exact_mod_cast hsf.2⟩
    have havq : (0 : ℚ) ≤ (av : ℚ) ∧ (av : ℚ) ≤ 100 :=
      ⟨by exact_mod_cast hav.1, by exact_mod_cast hav.2⟩
    have hpeq : (0 : ℚ) ≤ (pe : ℚ) ∧ (pe : ℚ) ≤ 100 :=
      ⟨by exact_mod_cast hpe.1, by exact_mod_cast hpe.2⟩
    exact pyRound_mem_0_100
      (by nlinarith [hsfq.1, havq.1, hpeq.1])
      (by nlinarith [hsfq.2, havq.2, hpeq.2])
  · have hsfq : (0 : ℚ) ≤ (sf : ℚ) ∧ (sf : ℚ) ≤ 100 :=
      ⟨by exact_mod_cast hsf.1, by exact_mod_cast hsf.2⟩
    have havq : (0 : ℚ) ≤ (av : ℚ) ∧ (av : ℚ) ≤ 100 :=
      ⟨by exact_mod_cast hav.1, by exact_mod_cast hav.2⟩
    exact pyRound_mem_0_100
      (by nlinarith [hsfq.1, havq.1])
      (by nlinarith [hsfq.2, havq.2])

/-- Concrete reference project for the C9 witness. -/
def c9ref : Project := ⟨3, "RefNine", some "acme", Option.none⟩

/-- Concrete experience for the C9 witness. -/
def c9exp : ConsultantProject :=
  ⟨⟨4, "PastNine", some "acme", Option.none⟩, Option.none, Option.none,
    Option.none, some 9, some 2026, some 5⟩

/-- Witness for C9 at concrete in-range inputs. -/
theorem engine_scores_in_range_witness :
    ((0 : ℤ) ≤ 80 ∧ (80 : ℤ) ≤ 100 ∧ (∀ cp ∈ [c9exp], expDateOk cp)) ∧
    ((0 ≤ calculate_skill_fit (fun _ => 3) [((1 : ℤ), (2 : ℤ))] ∧
        calculate_skill_fit (fun _ => 3) [((1 : ℤ), (2 : ℤ))] ≤ 100) ∧
     (∃ score info, calculate_project_similarity 2026 10 [c9exp] (some c9ref)
        = some (score, info) ∧ 0 ≤ score ∧ score ≤ 100) ∧
     (0 ≤ calculate_final_score 80 60 (some 40) ∧
        calculate_final_score 80 60 (some 40) ≤ 100) ∧
     (0 ≤ calculate_final_score 80 60 Option.none ∧
        calculate_final_score 80 60 Option.none ≤ 100)) :=
  ⟨⟨by norm_num, by norm_num, by decide⟩,
   engine_scores_in_range (fun _ => 3) [(1, 2)]
     (fun i => ⟨by norm_num, by norm_num⟩)
     (by
       intro p hp
       have hp' : p = ((1 : ℤ), (2 : ℤ)) := by simpa using hp
       rw [hp']
       exact ⟨by norm_num, by norm_num⟩)
     2026 10 [c9exp] (some c9ref) (by decide) 80 60 40
     ⟨by norm_num, by norm_num⟩ ⟨by norm_num, by norm_num⟩
     ⟨by norm_num, by norm_num⟩⟩

/-- C4. The match computation applies the two-term formula
`round(0.65*skill_fit + 0.35*availability)` exactly when the reference
project is absent (no experience is evaluated then, so no raise is
possible); with a reference project present and the stored end dates in
`datetime`'s domain it always applies the three-term formula
`round(0.55*skill_fit + 0.30*availability + 0.15*project_experience)` —
also when the consultant has no experiences, in which case
`project_experience = 0` but the three-term weights are still used. -/
theorem match_weight_formulas (nowY nowM : ℤ) (csd : ℤ → ℤ)
    (required : List (ℤ × ℤ)) (workloads : List MonthlyWorkload) (month : ℤ)
    (cps : List ConsultantProject) (rp : Project)
    (hvalid : ∀ cp ∈ cps, expDateOk cp) :
    (matchFinalScore nowY nowM csd required workloads month cps Option.none
      = some (pyRound (65/100 * (calculate_skill_fit csd required : ℚ)
          + 35/100 * ((get_consultant_workload_for_month workloads
              month).availability_percent : ℚ)))) ∧
    (∃ pe info,
      calculate_project_similarity nowY nowM cps (some rp) = some (pe, info) ∧
      matchFinalScore nowY nowM csd required workloads month cps (some rp)
        = some (pyRound (55/100 * (calculate_skill_fit csd required : ℚ)
            + 30/100 * ((get_consultant_workload_for_month workloads
                month).availability_percent : ℚ)
            + 15/100 * (pe : ℚ)))) ∧
    (calculate_project_similarity nowY nowM [] (some rp) = some (0, Option.none) ∧
     matchFinalScore nowY nowM csd required workloads month [] (some rp)
      = some (pyRound (55/100 * (calculate_skill_fit csd required : ℚ)
          + 30/100 * ((get_consultant_workload_for_month workloads
              month).availability_percent : ℚ)
          + 15/100 * (((0 : ℤ) : ℚ))))) := by
  refine ⟨rfl, ?_, rfl, rfl⟩
  match cps, hvalid with
  | [], _ =>
      exact ⟨0, Option.none, rfl, rfl⟩
  | c :: t, hvalid =>
      have hcalc := calculate_project_similarity_eq nowY nowM (c :: t) rp
        (by simp) hvalid
      refine ⟨_, _, hcalc, ?_⟩
      simp only [matchFinalScore, hcalc]
      rfl

/-- Concrete reference project for the C4 witness. -/
def c4ref : Project := ⟨5, "RefFour", Option.none, Option.none⟩

/-- Witness for C4 with an empty experience list: the three-term formula
is applied with project experience 0. -/
theorem match_weight_formulas_witness :
    (∀ cp ∈ ([] : List ConsultantProject), expDateOk cp) ∧
    (calculate_project_similarity 2026 10 [] (some c4ref) = some (0, Option.none) ∧
     matchFinalScore 2026 10 (fun _ => 3) [] [] 1 [] (some c4ref)
      = some (pyRound (55/100 * (calculate_skill_fit (fun _ => 3)
            ([] : List (ℤ × ℤ)) : ℚ)
          + 30/100 * ((get_consultant_workload_for_month
              ([] : List MonthlyWorkload) 1).availability_percent : ℚ)
          + 15/100 * (((0 : ℤ) : ℚ))))) :=
  ⟨by decide,
   (match_weight_formulas 2026 10 (fun _ => 3) [] [] 1 [] c4ref (by decide)).2.2⟩
